import Mathlib

/-!
# Verification of `GpioFast.h` (NUCLEO-H7 repository)

Shallow embedding of the GPIO pin operations generated by the
`GPIO_output_functions2` / `GPIO_input_functions2` macros in
`src/Blink/Core/Inc/GpioFast.h`, together with proofs of the
specification's claims about them.

The macros generate, for a pin symbol `x` bound to a port `x_GPIO_Port`
and a single-bit mask `x_Pin`:

* `x_on()    { x_GPIO_Port->BSRR = (uint32_t)( x_Pin      ); }`
* `x_off()   { x_GPIO_Port->BSRR = (uint32_t)( x_Pin << 16); }`
* `x_set(a)  { if (a) x_on(); else x_off(); }`
* `x_get()   { return 0 != (x_GPIO_Port->IDR & x_Pin); }`
* `x_pulse(q){ for (; q; q--) { x_on(); x_off(); } }`

The embedding represents a GPIO port by its 16-bit output latch `ODR`
and its 16-bit input-data register `IDR`, and represents a pin by its
bit mask `Pin : Nat` (the spec's invariant: a single set bit below 16).
Every BSRR store performed by the code is additionally recorded in a
write trace, so that claims about *which* stores happen (and that no
read-modify-write of the output register occurs) are expressible.
-/

namespace GpioFast

/-- A GPIO port register block: the 16-bit output latch `ODR` and the
16-bit input-data register `IDR`.  (The code never touches any other
register of the block, so only these two are modelled.) -/
structure GPIOPort where
  ODR : Nat
  IDR : Nat
  deriving DecidableEq, Repr

/-- Modelled from the spec: the hardware semantics of the combined
set/reset register `BSRR`, which is missing from the sources (it is the
microcontroller's GPIO peripheral).  Per the spec's hardware-interface
section, writing a bit in the lower half sets the corresponding output
pin and writing the same bit position shifted into the upper half
clears it; bits written as zero leave their pin unchanged.  Set bits
take priority over reset bits, and the input register is unaffected. -/
def writeBSRR (p : GPIOPort) (w : Nat) : GPIOPort :=
  let setBits := w % 2 ^ 16
  let resetBits := (w / 2 ^ 16) % 2 ^ 16
  { p with ODR := (p.ODR &&& ((2 ^ 16 - 1) ^^^ resetBits)) ||| setBits }

/-- The observable machine state for one port: the register block plus
the trace of values stored to `BSRR`, in program order. -/
structure PortState where
  port : GPIOPort
  writes : List Nat
  deriving DecidableEq, Repr

/-- One store of value `w` to the port's `BSRR` register. -/
def bsrrStore (s : PortState) (w : Nat) : PortState :=
  { port := writeBSRR s.port w, writes := s.writes ++ [w] }

/-- `x_on()  { x_GPIO_Port->BSRR = (uint32_t)( x_Pin ); }` -/
def x_on (Pin : Nat) (s : PortState) : PortState :=
  bsrrStore s (Pin % 2 ^ 32)

/-- `x_off() { x_GPIO_Port->BSRR = (uint32_t)( x_Pin << 16); }` -/
def x_off (Pin : Nat) (s : PortState) : PortState :=
  bsrrStore s ((Pin <<< 16) % 2 ^ 32)

/-- `x_set(uint32_t arg) { if (arg) x_on(); else x_off(); }` -/
def x_set (Pin : Nat) (arg : Nat) (s : PortState) : PortState :=
  if arg ≠ 0 then x_on Pin s else x_off Pin s

/-- `x_get() { return 0 != (x_GPIO_Port->IDR & x_Pin); }`
A pure read: the C function performs no store, which the embedding
reflects by returning only the value. -/
def x_get (Pin : Nat) (s : PortState) : Nat :=
  if s.port.IDR &&& Pin ≠ 0 then 1 else 0

/-- `x_pulse(unsigned qty) { for (; qty; qty--) { x_on(); x_off(); } }` -/
def x_pulse (Pin : Nat) (qty : Nat) (s : PortState) : PortState :=
  match qty with
  | 0 => s
  | q + 1 => x_pulse Pin q (x_off Pin (x_on Pin s))

/-- Modelled from the spec: loop-back wiring (a simulated register model
in which the electrical pin state mirrors the output latch), used by the
spec's testable properties that read back what was just driven.  The
hardware input path is not part of the sources. -/
def loopback (s : PortState) : PortState :=
  { s with port := { s.port with IDR := s.port.ODR } }

/-- The BSRR store sequence the spec prescribes for `pulse(qty)`: `qty`
repetitions of a set-store of the pin's mask followed by a reset-store
of the mask shifted into the upper half, starting with a set-store. -/
def pulseTrace (Pin : Nat) : Nat → List Nat
  | 0 => []
  | n + 1 => Pin :: (Pin <<< 16) :: pulseTrace Pin n

/-- Fuel-indexed execution of the loop `for (; qty; qty--) { on(); off(); }`:
each recursive step consumes one unit of fuel, tests the counter, runs one
loop body and decrements the counter.  `none` means the fuel was exhausted
before the loop exited. -/
def runLoop (Pin : Nat) : Nat → Nat → PortState → Option PortState
  | _, 0, s => some s
  | 0, _ + 1, _ => none
  | f + 1, q + 1, s => runLoop Pin f q (x_off Pin (x_on Pin s))

/-! ## Helper lemmas -/

theorem two_pow_lt_16 {i : Nat} (h : i < 16) : 2 ^ i < 65536 := by
  have h2 : (2 : Nat) ^ i < 2 ^ 16 := Nat.pow_lt_pow_right one_lt_two h
  norm_num at h2
  exact h2

theorem testBit_mask16 (j : Nat) : Nat.testBit 65535 j = decide (j < 16) := by
  have he : (65535 : Nat) = 2 ^ 16 - 1 := by norm_num
  rw [he, Nat.testBit_two_pow_sub_one]

theorem x_on_port_ODR {i : Nat} (h : i < 16) (s : PortState) :
    (x_on (2 ^ i) s).port.ODR = (s.port.ODR &&& (2 ^ 16 - 1)) ||| 2 ^ i := by
  have h16 : (2 : Nat) ^ i < 65536 := two_pow_lt_16 h
  have h32 : (2 : Nat) ^ i < 4294967296 := lt_trans h16 (by norm_num)
  simp [x_on, bsrrStore, writeBSRR, Nat.mod_eq_of_lt h32, Nat.mod_eq_of_lt h16,
    Nat.div_eq_of_lt h16]

theorem x_off_port_ODR {i : Nat} (h : i < 16) (s : PortState) :
    (x_off (2 ^ i) s).port.ODR = s.port.ODR &&& ((2 ^ 16 - 1) ^^^ 2 ^ i) := by
  have he : (2 : Nat) ^ i <<< 16 = 2 ^ i * 65536 := by
    rw [Nat.shiftLeft_eq]
  have h16 : (2 : Nat) ^ i < 65536 := two_pow_lt_16 h
  have h32 : (2 : Nat) ^ i * 65536 < 4294967296 := by
    calc (2 : Nat) ^ i * 65536 < 65536 * 65536 := by
          exact Nat.mul_lt_mul_of_lt_of_le h16 (le_refl _) (by norm_num)
    _ = 4294967296 := by norm_num
  simp [x_off, bsrrStore, writeBSRR, he, Nat.mod_eq_of_lt h32, Nat.mul_mod_left,
    Nat.mul_div_cancel _ (show 0 < 65536 by norm_num), Nat.mod_eq_of_lt h16]

theorem x_on_port_IDR (Pin : Nat) (s : PortState) :
    (x_on Pin s).port.IDR = s.port.IDR := rfl

theorem x_off_port_IDR (Pin : Nat) (s : PortState) :
    (x_off Pin s).port.IDR = s.port.IDR := rfl

theorem x_on_writes (Pin : Nat) (s : PortState) :
    (x_on Pin s).writes = s.writes ++ [Pin % 2 ^ 32] := rfl

theorem x_off_writes (Pin : Nat) (s : PortState) :
    (x_off Pin s).writes = s.writes ++ [(Pin <<< 16) % 2 ^ 32] := rfl

theorem testBit_x_on_other {i j : Nat} (hi : i < 16) (hj : j < 16) (hij : j ≠ i)
    (s : PortState) :
    Nat.testBit (x_on (2 ^ i) s).port.ODR j = Nat.testBit s.port.ODR j := by
  rw [x_on_port_ODR hi]
  simp [Nat.testBit_lor, Nat.testBit_land, Nat.testBit_two_pow_sub_one, testBit_mask16,
    Nat.testBit_two_pow_of_ne (Ne.symm hij), hj]

theorem testBit_x_off_other {i j : Nat} (hi : i < 16) (hj : j < 16) (hij : j ≠ i)
    (s : PortState) :
    Nat.testBit (x_off (2 ^ i) s).port.ODR j = Nat.testBit s.port.ODR j := by
  rw [x_off_port_ODR hi]
  simp [Nat.testBit_land, Nat.testBit_xor, Nat.testBit_two_pow_sub_one, testBit_mask16,
    Nat.testBit_two_pow_of_ne (Ne.symm hij), hj]

theorem testBit_x_on_self {i : Nat} (hi : i < 16) (s : PortState) :
    Nat.testBit (x_on (2 ^ i) s).port.ODR i = true := by
  rw [x_on_port_ODR hi]
  simp [Nat.testBit_lor, Nat.testBit_two_pow_self]

theorem testBit_x_off_self {i : Nat} (hi : i < 16) (s : PortState) :
    Nat.testBit (x_off (2 ^ i) s).port.ODR i = false := by
  rw [x_off_port_ODR hi]
  simp [Nat.testBit_land, Nat.testBit_xor, Nat.testBit_two_pow_sub_one, testBit_mask16,
    Nat.testBit_two_pow_self, hi]

theorem x_pulse_port_IDR (Pin qty : Nat) (s : PortState) :
    (x_pulse Pin qty s).port.IDR = s.port.IDR := by
  induction qty generalizing s with
  | zero => rfl
  | succ q ih =>
    simp only [x_pulse]
    rw [ih, x_off_port_IDR, x_on_port_IDR]

theorem testBit_x_pulse_other {i j : Nat} (hi : i < 16) (hj : j < 16) (hij : j ≠ i)
    (qty : Nat) (s : PortState) :
    Nat.testBit (x_pulse (2 ^ i) qty s).port.ODR j = Nat.testBit s.port.ODR j := by
  induction qty generalizing s with
  | zero => rfl
  | succ q ih =>
    simp only [x_pulse]
    rw [ih, testBit_x_off_other hi hj hij, testBit_x_on_other hi hj hij]

theorem x_pulse_writes {i : Nat} (hi : i < 16) (qty : Nat) (s : PortState) :
    (x_pulse (2 ^ i) qty s).writes = s.writes ++ pulseTrace (2 ^ i) qty := by
  have h16 : (2 : Nat) ^ i < 65536 := two_pow_lt_16 hi
  have h32 : (2 : Nat) ^ i < 4294967296 := lt_trans h16 (by norm_num)
  have hs : ((2 : Nat) ^ i <<< 16) < 4294967296 := by
    rw [Nat.shiftLeft_eq]
    calc (2 : Nat) ^ i * 2 ^ 16 < 65536 * 65536 := by
          exact Nat.mul_lt_mul_of_lt_of_le h16 (by norm_num) (by norm_num)
    _ = 4294967296 := by norm_num
  induction qty generalizing s with
  | zero => simp [x_pulse, pulseTrace]
  | succ q ih =>
    simp only [x_pulse, pulseTrace]
    rw [ih]
    simp [x_on, x_off, bsrrStore, Nat.mod_eq_of_lt h32, Nat.mod_eq_of_lt hs]

theorem testBit_x_pulse_self {i : Nat} (hi : i < 16) (qty : Nat) (s : PortState) :
    Nat.testBit (x_pulse (2 ^ i) qty (x_off (2 ^ i) (x_on (2 ^ i) s))).port.ODR i
      = false := by
  induction qty generalizing s with
  | zero => exact testBit_x_off_self hi _
  | succ q ih =>
    simp only [x_pulse]
    exact ih _

theorem x_pulse_add (Pin m n : Nat) (s : PortState) :
    x_pulse Pin m (x_pulse Pin n s) = x_pulse Pin (n + m) s := by
  induction n generalizing s with
  | zero => simp [x_pulse]
  | succ q ih =>
    have hq : q + 1 + m = (q + m) + 1 := by omega
    rw [hq]
    simp only [x_pulse]
    exact ih _

theorem GPIOPort.ext' {p q : GPIOPort} (h1 : p.ODR = q.ODR) (h2 : p.IDR = q.IDR) :
    p = q := by
  cases p
  cases q
  simp_all

theorem x_on_on_ODR {i : Nat} (hi : i < 16) (s : PortState) :
    (x_on (2 ^ i) (x_on (2 ^ i) s)).port.ODR = (x_on (2 ^ i) s).port.ODR := by
  rw [x_on_port_ODR hi, x_on_port_ODR hi]
  refine Nat.eq_of_testBit_eq fun j => ?_
  simp only [Nat.testBit_lor, Nat.testBit_land, Nat.testBit_two_pow_sub_one,
    Nat.testBit_two_pow]
  by_cases hij : i = j
  · subst hij
    simp [hi]
  · by_cases hj : j < 16 <;> simp [hij, hj]

theorem x_off_off_ODR {i : Nat} (hi : i < 16) (s : PortState) :
    (x_off (2 ^ i) (x_off (2 ^ i) s)).port.ODR = (x_off (2 ^ i) s).port.ODR := by
  rw [x_off_port_ODR hi, x_off_port_ODR hi]
  refine Nat.eq_of_testBit_eq fun j => ?_
  simp [Nat.testBit_land, Bool.and_assoc]

theorem x_on_idem {i : Nat} (hi : i < 16) (s : PortState) :
    (x_on (2 ^ i) (x_on (2 ^ i) s)).port = (x_on (2 ^ i) s).port :=
  GPIOPort.ext' (x_on_on_ODR hi s) rfl

theorem x_off_idem {i : Nat} (hi : i < 16) (s : PortState) :
    (x_off (2 ^ i) (x_off (2 ^ i) s)).port = (x_off (2 ^ i) s).port :=
  GPIOPort.ext' (x_off_off_ODR hi s) rfl

theorem x_get_eq_testBit {i : Nat} (s : PortState) :
    x_get (2 ^ i) s = if Nat.testBit s.port.IDR i then 1 else 0 := by
  have hp : (2 : Nat) ^ i ≠ 0 := (Nat.pow_pos (by norm_num)).ne'
  unfold x_get
  rw [Nat.and_two_pow]
  cases h : Nat.testBit s.port.IDR i <;> simp [h, hp]

/-! ## Claims -/

/-- C1: for every pin (a single-bit mask) and every other bit of the same
port's register, executing any of the pin's operations (`on`, `off`, `set`,
`pulse`; `get` performs no store at all in the embedding) leaves every
register bit belonging to any other pin of that port unchanged: the output
latch keeps its value at every other bit position, and the input register
is untouched. -/
theorem C1_pin_isolation (Pin i : Nat) (hPin : Pin = 2 ^ i) (hi : i < 16)
    (j : Nat) (hj : j < 16) (hij : j ≠ i) :
    ∀ (s : PortState) (arg qty : Nat),
      Nat.testBit (x_on Pin s).port.ODR j = Nat.testBit s.port.ODR j ∧
      Nat.testBit (x_off Pin s).port.ODR j = Nat.testBit s.port.ODR j ∧
      Nat.testBit (x_set Pin arg s).port.ODR j = Nat.testBit s.port.ODR j ∧
      Nat.testBit (x_pulse Pin qty s).port.ODR j = Nat.testBit s.port.ODR j ∧
      (x_on Pin s).port.IDR = s.port.IDR ∧
      (x_off Pin s).port.IDR = s.port.IDR ∧
      (x_set Pin arg s).port.IDR = s.port.IDR ∧
      (x_pulse Pin qty s).port.IDR = s.port.IDR := by
  subst hPin
  intro s arg qty
  refine ⟨testBit_x_on_other hi hj hij s, testBit_x_off_other hi hj hij s, ?_,
    testBit_x_pulse_other hi hj hij qty s, rfl, rfl, ?_, x_pulse_port_IDR _ qty s⟩
  · unfold x_set
    by_cases h : arg ≠ 0 <;>
      simp [h, testBit_x_on_other hi hj hij, testBit_x_off_other hi hj hij]
  · unfold x_set
    by_cases h : arg ≠ 0 <;> simp [h, x_on_port_IDR, x_off_port_IDR]

/-- Witness for C1 at pin mask 32 = 2^5, other bit 3, a concrete state. -/
theorem C1_pin_isolation_witness :
    (32 : Nat) = 2 ^ 5 ∧ (3 : Nat) ≠ 5 ∧
    Nat.testBit (x_pulse 32 2 ⟨⟨8, 7⟩, []⟩).port.ODR 3 = Nat.testBit 8 3 :=
  ⟨by decide, by decide,
    (C1_pin_isolation 32 5 rfl (by decide) 3 (by decide) (by decide)
      ⟨⟨8, 7⟩, []⟩ 0 2).2.2.2.1⟩

/-- C2: `on()` stores exactly the pin's bit mask (the lower-half bit-set
position) into the port's set/reset register — for every machine state the
single appended store is the constant `Pin`, so no read of the output
register feeds the written value — and the pin's own output bit becomes
high, with the input register untouched. -/
theorem C2_on_semantics (Pin i : Nat) (hPin : Pin = 2 ^ i) (hi : i < 16) :
    ∀ s : PortState,
      (x_on Pin s).writes = s.writes ++ [Pin] ∧
      Nat.testBit (x_on Pin s).port.ODR i = true ∧
      (x_on Pin s).port.IDR = s.port.IDR := by
  subst hPin
  intro s
  have h16 : (2 : Nat) ^ i < 65536 := two_pow_lt_16 hi
  have h32 : (2 : Nat) ^ i < 4294967296 := lt_trans h16 (by norm_num)
  refine ⟨?_, testBit_x_on_self hi s, rfl⟩
  rw [x_on_writes]
  norm_num [Nat.mod_eq_of_lt h32]

/-- Witness for C2 at pin mask 4 = 2^2 and a concrete state. -/
theorem C2_on_semantics_witness :
    (4 : Nat) = 2 ^ 2 ∧ (2 : Nat) < 16 ∧
    (x_on 4 ⟨⟨3, 5⟩, [9]⟩).writes = [9] ++ [4] :=
  ⟨by decide, by decide, (C2_on_semantics 4 2 rfl (by decide) ⟨⟨3, 5⟩, [9]⟩).1⟩

/-- C3: `off()` stores exactly the pin's bit mask shifted left by 16 (the
upper-half bit-reset position) into the same set/reset register — for
every machine state the single appended store is the constant
`Pin <<< 16`, independent of the output register — and the pin's own
output bit becomes low, with the input register untouched. -/
theorem C3_off_semantics (Pin i : Nat) (hPin : Pin = 2 ^ i) (hi : i < 16) :
    ∀ s : PortState,
      (x_off Pin s).writes = s.writes ++ [Pin <<< 16] ∧
      Nat.testBit (x_off Pin s).port.ODR i = false ∧
      (x_off Pin s).port.IDR = s.port.IDR := by
  subst hPin
  intro s
  have h16 : (2 : Nat) ^ i < 65536 := two_pow_lt_16 hi
  have hs : ((2 : Nat) ^ i <<< 16) < 4294967296 := by
    rw [Nat.shiftLeft_eq]
    calc (2 : Nat) ^ i * 2 ^ 16 < 65536 * 65536 := by
          exact Nat.mul_lt_mul_of_lt_of_le h16 (by norm_num) (by norm_num)
    _ = 4294967296 := by norm_num
  refine ⟨?_, testBit_x_off_self hi s, rfl⟩
  rw [x_off_writes]
  norm_num [Nat.mod_eq_of_lt hs]

/-- Witness for C3 at pin mask 4 = 2^2 and a concrete state. -/
theorem C3_off_semantics_witness :
    (4 : Nat) = 2 ^ 2 ∧ (2 : Nat) < 16 ∧
    (x_off 4 ⟨⟨7, 5⟩, []⟩).writes = [] ++ [262144] :=
  ⟨by decide, by decide, (C3_off_semantics 4 2 rfl (by decide) ⟨⟨7, 5⟩, []⟩).1⟩

/-- C4: `set(v)` has exactly the effect of `on()` when `v` is nonzero and
exactly the effect of `off()` when `v` is zero, for every pin mask, every
argument and every machine state. -/
theorem C4_set_dispatch (Pin v : Nat) :
    ∀ s : PortState,
      (v ≠ 0 → x_set Pin v s = x_on Pin s) ∧
      (v = 0 → x_set Pin v s = x_off Pin s) := by
  intro s
  constructor <;> intro h <;> simp [x_set, h]

/-- Witness for C4 at pin mask 32, arguments 7 and 0. -/
theorem C4_set_dispatch_witness :
    x_set 32 7 ⟨⟨1, 2⟩, []⟩ = x_on 32 ⟨⟨1, 2⟩, []⟩ ∧
    x_set 32 0 ⟨⟨1, 2⟩, []⟩ = x_off 32 ⟨⟨1, 2⟩, []⟩ :=
  ⟨(C4_set_dispatch 32 7 ⟨⟨1, 2⟩, []⟩).1 (by decide),
   (C4_set_dispatch 32 0 ⟨⟨1, 2⟩, []⟩).2 rfl⟩

/-- C5: `get()` reads the input-state register `IDR` (not the output
latch): its result is exactly the pin's bit of `IDR` as 0 or 1, and it is
the same on any state with the same `IDR` (so the output latch and the
store history are irrelevant).  The embedding of `get` is a pure
function, reflecting that the C body performs no store. -/
theorem C5_get_semantics (Pin i : Nat) (hPin : Pin = 2 ^ i) (_hi : i < 16) :
    ∀ s : PortState,
      x_get Pin s = (if Nat.testBit s.port.IDR i then 1 else 0) ∧
      (x_get Pin s = 0 ∨ x_get Pin s = 1) ∧
      (∀ t : PortState, t.port.IDR = s.port.IDR → x_get Pin t = x_get Pin s) := by
  subst hPin
  intro s
  refine ⟨x_get_eq_testBit s, ?_, ?_⟩
  · rw [x_get_eq_testBit s]
    by_cases h : Nat.testBit s.port.IDR i <;> simp [h]
  · intro t ht
    unfold x_get
    rw [ht]

/-- Witness for C5 at pin mask 8 = 2^3 and a concrete state whose bit 3
of `IDR` is set. -/
theorem C5_get_semantics_witness :
    (8 : Nat) = 2 ^ 3 ∧ (3 : Nat) < 16 ∧
    x_get 8 ⟨⟨0, 12⟩, []⟩ = (if Nat.testBit 12 3 then 1 else 0) :=
  ⟨by decide, by decide, (C5_get_semantics 8 3 rfl (by decide) ⟨⟨0, 12⟩, []⟩).1⟩

/-- C6: `pulse(n)` performs exactly `n` set-stores and `n` reset-stores,
alternating starting with a set-store (the trace appended to the store
history is `n` repetitions of `Pin` then `Pin <<< 16`, of length `2 * n`);
`pulse(0)` performs no store and leaves the whole state unchanged; and for
`n ≥ 1` the pin's output bit after `pulse(n)` is low. -/
theorem C6_pulse_semantics (Pin i : Nat) (hPin : Pin = 2 ^ i) (hi : i < 16) :
    ∀ (n : Nat) (s : PortState),
      (x_pulse Pin n s).writes = s.writes ++ pulseTrace Pin n ∧
      (pulseTrace Pin n).length = 2 * n ∧
      x_pulse Pin 0 s = s ∧
      (1 ≤ n → Nat.testBit (x_pulse Pin n s).port.ODR i = false) := by
  subst hPin
  intro n s
  refine ⟨x_pulse_writes hi n s, ?_, rfl, ?_⟩
  · induction n with
    | zero => rfl
    | succ q ih =>
      simp only [pulseTrace, List.length_cons, ih]
      omega
  · intro hn
    obtain ⟨q, rfl⟩ : ∃ q, n = q + 1 := ⟨n - 1, by omega⟩
    simp only [x_pulse]
    exact testBit_x_pulse_self hi q s

/-- Witness for C6 at pin mask 2 = 2^1, three pulses, a concrete state. -/
theorem C6_pulse_semantics_witness :
    (2 : Nat) = 2 ^ 1 ∧ (1 : Nat) ≤ 3 ∧
    (x_pulse 2 3 ⟨⟨0, 0⟩, []⟩).writes = [] ++ pulseTrace 2 3 ∧
    Nat.testBit (x_pulse 2 3 ⟨⟨0, 0⟩, []⟩).port.ODR 1 = false :=
  ⟨by decide, by decide,
   (C6_pulse_semantics 2 1 rfl (by decide) 3 ⟨⟨0, 0⟩, []⟩).1,
   (C6_pulse_semantics 2 1 rfl (by decide) 3 ⟨⟨0, 0⟩, []⟩).2.2.2 (by decide)⟩

/-- C7: under the loop-back register model (the input register mirrors
the output latch), `set(b)` followed by `get()` returns exactly `b` as
0 or 1; in particular `get` returns 1 right after `on()` and 0 right
after `off()`. -/
theorem C7_set_get_roundtrip (Pin i : Nat) (hPin : Pin = 2 ^ i) (hi : i < 16) :
    ∀ (b : Bool) (s : PortState),
      x_get Pin (loopback (x_set Pin (cond b 1 0) s)) = cond b 1 0 ∧
      x_get Pin (loopback (x_on Pin s)) = 1 ∧
      x_get Pin (loopback (x_off Pin s)) = 0 := by
  subst hPin
  intro b s
  have hon : x_get (2 ^ i) (loopback (x_on (2 ^ i) s)) = 1 := by
    rw [x_get_eq_testBit]
    simp [loopback, testBit_x_on_self hi]
  have hoff : x_get (2 ^ i) (loopback (x_off (2 ^ i) s)) = 0 := by
    rw [x_get_eq_testBit]
    simp [loopback, testBit_x_off_self hi]
  refine ⟨?_, hon, hoff⟩
  cases b
  · simpa [x_set] using hoff
  · simpa [x_set] using hon

/-- Witness for C7 at pin mask 16 = 2^4, `b = true`, a concrete state. -/
theorem C7_set_get_roundtrip_witness :
    (16 : Nat) = 2 ^ 4 ∧ (4 : Nat) < 16 ∧
    x_get 16 (loopback (x_set 16 (cond true 1 0) ⟨⟨5, 0⟩, []⟩)) = cond true 1 0 :=
  ⟨by decide, by decide,
   (C7_set_get_roundtrip 16 4 rfl (by decide) true ⟨⟨5, 0⟩, []⟩).1⟩

/-- C8: `on()`, `off()` and `set(v)` (for a fixed `v`) are stateless and
idempotent on the register state — running one twice leaves the same
registers as running it once — and `get()` twice trivially returns the
same value since its embedding is a pure function of the state; `pulse`
is the exception: running `pulse(n)` then `pulse(m)` is exactly
`pulse(n + m)`, its effect being the cumulative count of pulses. -/
theorem C8_stateless_idempotent (Pin i : Nat) (hPin : Pin = 2 ^ i) (hi : i < 16) :
    ∀ (s : PortState) (v m n : Nat),
      (x_on Pin (x_on Pin s)).port = (x_on Pin s).port ∧
      (x_off Pin (x_off Pin s)).port = (x_off Pin s).port ∧
      (x_set Pin v (x_set Pin v s)).port = (x_set Pin v s).port ∧
      x_pulse Pin m (x_pulse Pin n s) = x_pulse Pin (n + m) s := by
  subst hPin
  intro s v m n
  refine ⟨x_on_idem hi s, x_off_idem hi s, ?_, x_pulse_add _ m n s⟩
  by_cases h : v = 0
  · simp only [x_set, h, ne_eq, not_true_eq_false, if_false]
    exact x_off_idem hi s
  · simp only [x_set, h, ne_eq, not_false_eq_true, if_true]
    exact x_on_idem hi s

/-- Witness for C8 at pin mask 1 = 2^0, `v = 5`, one and two pulses. -/
theorem C8_stateless_idempotent_witness :
    (1 : Nat) = 2 ^ 0 ∧ (0 : Nat) < 16 ∧
    (x_on 1 (x_on 1 ⟨⟨2, 3⟩, []⟩)).port = (x_on 1 ⟨⟨2, 3⟩, []⟩).port ∧
    x_pulse 1 2 (x_pulse 1 1 ⟨⟨2, 3⟩, []⟩) = x_pulse 1 3 ⟨⟨2, 3⟩, []⟩ :=
  ⟨by decide, by decide,
   (C8_stateless_idempotent 1 0 rfl (by decide) ⟨⟨2, 3⟩, []⟩ 5 2 1).1,
   (C8_stateless_idempotent 1 0 rfl (by decide) ⟨⟨2, 3⟩, []⟩ 5 2 1).2.2.2⟩

/-- C9: every operation terminates.  `on`, `off`, `set` and `get` are
straight-line total functions of the embedding, and the `pulse` loop
`for (; qty; qty--)` exits after exactly `qty` iterations: running the
fuel-indexed loop with fuel equal to the initial counter value already
completes (never exhausts the fuel) and yields `pulse`'s result. -/
theorem C9_pulse_terminates (Pin : Nat) :
    ∀ (qty : Nat) (s : PortState),
      runLoop Pin qty qty s = some (x_pulse Pin qty s) := by
  intro qty
  induction qty with
  | zero => intro s; rfl
  | succ q ih =>
    intro s
    simp only [runLoop, x_pulse]
    exact ih _

/-- C10: the result of `get()` depends only on the pin's own masked bits
of the input register: any two states whose input registers agree after
masking with the pin's mask give equal `get()` results, whatever every
other bit holds. -/
theorem C10_get_noninterference (Pin : Nat) (s t : PortState)
    (h : s.port.IDR &&& Pin = t.port.IDR &&& Pin) :
    x_get Pin s = x_get Pin t := by
  unfold x_get
  rw [h]

/-- Witness for C10 at pin mask 32 and two states that differ everywhere
except on bit 5 of the input register. -/
theorem C10_get_noninterference_witness :
    (⟨⟨0, 37⟩, []⟩ : PortState).port.IDR &&& 32
      = (⟨⟨9, 229⟩, [3]⟩ : PortState).port.IDR &&& 32 ∧
    x_get 32 ⟨⟨0, 37⟩, []⟩ = x_get 32 ⟨⟨9, 229⟩, [3]⟩ :=
  ⟨by decide, C10_get_noninterference 32 ⟨⟨0, 37⟩, []⟩ ⟨⟨9, 229⟩, [3]⟩ (by decide)⟩

end GpioFast
